import Mathlib

/-!
Verification of the patch-grid reconstruction engine of `HistImageMaker.py`
(class `HistopathologyImageMaker`).

The filesystem is abstracted as a pair of a directory listing
(`listing : List String`, the result of `os.listdir(dir)`) and an image
opener (`images : String → Except Err Img`, modelling `Image.open` on a
full path, which may fail).  An RGB image is a width, a height and a pixel
function; `Image.paste` becomes a pointwise update of the pixel function on
the pasted rectangle.  The classifier (together with the fixed
`transforms` normalization applied before it) is an abstract function
`model : Img → List ℝ` returning the row of output channels for a batch of
one; `torch.sigmoid` is the real logistic function.  Python exceptions
(ValueError from tuple unpacking and `int`, IndexError from `s[-5]`,
I/O and decode errors from `Image.open`) become an `Except Err` result,
and the final `hist_image.save(dst + ".png")` is modelled as the pair
(path written, canvas written) produced only on success.
-/

set_option autoImplicit false

namespace HistImageMaker

/-- Errors a reconstruction run can raise: the ValueError from
`img[1:-10].split('y')` unpacking / `int(...)` (the ParseError of the spec),
the IndexError from `img_dir[idx][-5]` on a too-short name, and the
I/O / decode errors of `Image.open` (the IOError / DecodeError of the spec). -/
inductive Err where
  | parseError
  | indexError
  | openError (path : String)
  deriving DecidableEq

/-- An RGB color, `(r, g, b)` with 8-bit channels. -/
abbrev Color := Nat × Nat × Nat

/-- An RGB image: dimensions plus a pixel function (only indices
`i < width`, `j < height` are observable). -/
structure Img where
  width : Nat
  height : Nat
  pix : Nat → Nat → Color

/-- `Image.new` with mode RGB, size (w, h) and color (255,255,255):
a blank white canvas. -/
def blankCanvas (w h : Nat) : Img :=
  { width := w, height := h, pix := fun _ _ => (255, 255, 255) }

/-- The fixed 50x50 green block
`Image.new` with mode RGB, size (50, 50) and color (0,255,0)
pasted instead of malignant patches (the LabelBlock of the spec). -/
def malignant_patch : Img :=
  { width := 50, height := 50, pix := fun _ _ => (0, 255, 0) }

/-- `canvas.paste(img, (x, y))`: overwrite the rectangle of `img` with its
top-left corner at `(x, y)`; anything falling outside the canvas is simply
never observed (PIL clips it). -/
def paste (canvas img : Img) (x y : Int) : Img :=
  { canvas with pix := fun i j =>
      if x ≤ (i : Int) ∧ (i : Int) < x + img.width ∧
         y ≤ (j : Int) ∧ (j : Int) < y + img.height
      then img.pix ((i : Int) - x).toNat ((j : Int) - y).toNat
      else canvas.pix i j }

/-- A pending paste operation: the image to paste and its position. -/
abbrev PasteOp := Img × Int × Int

/-- Apply a list of paste operations left to right. -/
def applyPastes (c : Img) (ops : List PasteOp) : Img :=
  ops.foldl (fun acc op => paste acc op.1 op.2.1 op.2.2) c

/-- `op` writes to pixel `(i, j)`. -/
def coversOp (op : PasteOp) (i j : Nat) : Prop :=
  op.2.1 ≤ (i : Int) ∧ (i : Int) < op.2.1 + op.1.width ∧
  op.2.2 ≤ (j : Int) ∧ (j : Int) < op.2.2 + op.1.height

instance (op : PasteOp) (i j : Nat) : Decidable (coversOp op i j) := by
  unfold coversOp; infer_instance

/-! ### The coordinate parser

`x, y = img[1:-10].split('y')` followed by `x, y = int(x[:-1]), int(y[:-1])`,
modelled character by character, including the acceptance by Python `int` of an
optional sign and of single underscores between digits. -/

/-- ASCII decimal digit test (`0132 ≤ c ≤ 0471` in code points). -/
def isDigitChar (c : Char) : Bool :=
  48 ≤ c.toNat && c.toNat ≤ 57

/-- Value of a decimal digit character. -/
def digitVal (c : Char) : Nat := c.toNat - 48

/-- The value of a string of decimal digits. -/
def decimalVal (l : List Char) : Nat :=
  l.foldl (fun n c => 10 * n + digitVal c) 0

/-- The digit-consuming loop of Python `int`, after the first digit:
accepts further digits, with single underscores allowed between digits. -/
def pyIntCore (acc : Nat) : List Char → Option Nat
  | [] => some acc
  | c :: rest =>
    if isDigitChar c then pyIntCore (10 * acc + digitVal c) rest
    else if c = '_' then
      match rest with
      | [] => none
      | d :: rest2 =>
        if isDigitChar d then pyIntCore (10 * acc + digitVal d) rest2 else none
    else none

/-- Python `int` on an unsigned numeric string: at least one digit,
single underscores allowed between digits. -/
def pyNat? : List Char → Option Nat
  | [] => none
  | c :: rest => if isDigitChar c then pyIntCore (digitVal c) rest else none

/-- A character Python `int` strips around a numeric literal
(space and the ASCII control whitespace 9-13). -/
def isPyWs (c : Char) : Bool :=
  c.toNat = 32 || (9 ≤ c.toNat && c.toNat ≤ 13)

/-- Strip leading and trailing whitespace, as Python `int` does. -/
def trimWs (l : List Char) : List Char :=
  ((l.dropWhile isPyWs).reverse.dropWhile isPyWs).reverse

/-- The sign handling of Python `int`: an optional single sign, then an
unsigned numeric string. -/
def pyIntSigned (l : List Char) : Option Int :=
  match l with
  | [] => none
  | c :: rest =>
    if c = '-' then (pyNat? rest).map (fun n => -(n : Int))
    else if c = '+' then (pyNat? rest).map (fun n => (n : Int))
    else (pyNat? (c :: rest)).map (fun n => (n : Int))

/-- Python `int(s)`: surrounding whitespace stripped, an optional sign,
then an unsigned numeric string.  `none` models the ValueError Python
raises on a malformed literal. -/
def pyInt? (l : List Char) : Option Int :=
  pyIntSigned (trimWs l)

/-- Python `str.split` with the one-character separator `sep`. -/
def splitOnChar (sep : Char) : List Char → List (List Char)
  | [] => [[]]
  | c :: rest =>
    if c = sep then [] :: splitOnChar sep rest
    else (c :: (splitOnChar sep rest).headD []) :: (splitOnChar sep rest).tail

/-- The second half of the parse: `int(x [:-1]), int(y [:-1])` on the two
parts produced by the split. -/
def parsePair (xs ys : List Char) : Except Err (Int × Int) :=
  match pyInt? xs.dropLast, pyInt? ys.dropLast with
  | some x, some y => Except.ok (x, y)
  | _, _ => Except.error Err.parseError

/-- The coordinate parser of all three reconstruction loops:
`x, y = img[1:-10].split('y')` (a ValueError unless the split yields
exactly two parts) and then `x, y = int(x [:-1]), int(y [:-1])`. -/
def parseCoords (name : List Char) : Except Err (Int × Int) :=
  match splitOnChar 'y' ((name.drop 1).take (name.length - 11)) with
  | [xs, ys] => parsePair xs ys
  | _ => Except.error Err.parseError

/-- `img_dir[idx] [-5]`: the class character of a patch filename
(an IndexError on names shorter than 5 characters). -/
def classChar? (name : List Char) : Except Err Char :=
  if h : 5 ≤ name.length then
    Except.ok (name.get ⟨name.length - 5, by omega⟩)
  else Except.error Err.indexError

/-! ### The coordinate-gathering and canvas-sizing prelude

The `for img in img_dir` loop computing `x_list`, `y_list`, `max_x`,
`max_y`; the source repeats it verbatim in each of the three build
methods, so it is embedded three times. -/

/-- The accumulated state of the gathering loop. -/
structure GatherData where
  xs : List Int
  ys : List Int
  maxX : Int
  maxY : Int
  deriving DecidableEq

/-- The gathering loop of `build_histopathological_image` (lines 67-82). -/
def gatherData_plain (listing : List String) : Except Err GatherData :=
  listing.foldlM
    (fun g name => do
      let (x, y) ← parseCoords name.data
      pure { xs := g.xs ++ [x], ys := g.ys ++ [y],
             maxX := if x > g.maxX then x else g.maxX,
             maxY := if y > g.maxY then y else g.maxY })
    { xs := [], ys := [], maxX := 0, maxY := 0 }

/-- The gathering loop of `build_truelabel_histopathological_image`
(lines 123-138), identical to the plain one. -/
def gatherData_truelabel (listing : List String) : Except Err GatherData :=
  listing.foldlM
    (fun g name => do
      let (x, y) ← parseCoords name.data
      pure { xs := g.xs ++ [x], ys := g.ys ++ [y],
             maxX := if x > g.maxX then x else g.maxX,
             maxY := if y > g.maxY then y else g.maxY })
    { xs := [], ys := [], maxX := 0, maxY := 0 }

/-- The gathering loop of `build_predicted_histopathological_image`
(lines 187-202), identical to the plain one. -/
def gatherData_predicted (listing : List String) : Except Err GatherData :=
  listing.foldlM
    (fun g name => do
      let (x, y) ← parseCoords name.data
      pure { xs := g.xs ++ [x], ys := g.ys ++ [y],
             maxX := if x > g.maxX then x else g.maxX,
             maxY := if y > g.maxY then y else g.maxY })
    { xs := [], ys := [], maxX := 0, maxY := 0 }

/-! ### The per-patch image choice of each mode -/

/-- Plain mode: `Image.open(dir + img_dir[idx])`, pasted verbatim. -/
def plainChoice (dir : String) (images : String → Except Err Img)
    (name : String) : Except Err Img :=
  images (dir ++ name)

/-- Ground-truth mode: `if img_dir[idx] [-5] == "0"` open and paste the
patch, `else` paste the green `malignant_patch`. -/
def truelabelChoice (dir : String) (images : String → Except Err Img)
    (name : String) : Except Err Img := do
  let c ← classChar? name.data
  if c = '0' then images (dir ++ name) else pure malignant_patch

/-- `torch.sigmoid`, the real logistic function. -/
noncomputable def sigmoid (x : ℝ) : ℝ := 1 / (1 + Real.exp (-x))

/-- `predicted = 1 if torch.sigmoid(output) > 0.5 else 0`, where
`output = self.model(tensor)[:,:1].squeeze(1)` keeps only the first
output channel (an at-most-one-element row, compared as its single
element). -/
noncomputable def predictedLabel (channels : List ℝ) : Nat :=
  if 1 / 2 < sigmoid ((channels.take 1).headD 0) then 1 else 0

/-- Predicted mode: open the patch, run the model once on it (the fixed
`transforms` normalization is folded into the abstract `model`), and paste
the patch itself when the prediction is benign (`0`), the green
`malignant_patch` otherwise. -/
noncomputable def predictedChoice (model : Img → List ℝ) (dir : String)
    (images : String → Except Err Img) (name : String) : Except Err Img := do
  let img ← images (dir ++ name)
  if predictedLabel (model img) = 0 then pure img else pure malignant_patch

/-! ### The three build methods

Each returns the single file write `(dst ++ ".png", canvas)` performed by
`hist_image.save(dst + ".png")`, or the first error raised. -/

/-- `build_histopathological_image(self, dir, dst)` (lines 44-97). -/
def build_histopathological_image (dir : String) (listing : List String)
    (images : String → Except Err Img) (dst : String) :
    Except Err (String × Img) := do
  let g ← gatherData_plain listing
  let hist ← (listing.zip (g.xs.zip g.ys)).foldlM
    (fun canvas e => do
      let img ← plainChoice dir images e.1
      pure (paste canvas img e.2.1 e.2.2))
    (blankCanvas g.maxX.toNat g.maxY.toNat)
  pure (dst ++ ".png", hist)

/-- `build_truelabel_histopathological_image(self, dir, dst)`
(lines 99-162). -/
def build_truelabel_histopathological_image (dir : String)
    (listing : List String) (images : String → Except Err Img)
    (dst : String) : Except Err (String × Img) := do
  let g ← gatherData_truelabel listing
  let hist ← (listing.zip (g.xs.zip g.ys)).foldlM
    (fun canvas e => do
      let img ← truelabelChoice dir images e.1
      pure (paste canvas img e.2.1 e.2.2))
    (blankCanvas g.maxX.toNat g.maxY.toNat)
  pure (dst ++ ".png", hist)

/-- `build_predicted_histopathological_image(self, dir, dst)`
(lines 164-241). -/
noncomputable def build_predicted_histopathological_image
    (model : Img → List ℝ) (dir : String) (listing : List String)
    (images : String → Except Err Img) (dst : String) :
    Except Err (String × Img) := do
  let g ← gatherData_predicted listing
  let hist ← (listing.zip (g.xs.zip g.ys)).foldlM
    (fun canvas e => do
      let img ← predictedChoice model dir images e.1
      pure (paste canvas img e.2.1 e.2.2))
    (blankCanvas g.maxX.toNat g.maxY.toNat)
  pure (dst ++ ".png", hist)

/-- The list of paste operations a mode performs, as a pure value:
the per-entry choice plus the gathered position. -/
def modeOps (choice : String → Except Err Img)
    (entries : List (String × Int × Int)) : Except Err (List PasteOp) :=
  entries.mapM (fun e => (choice e.1).map (fun im => (im, e.2.1, e.2.2)))

/-- `True` exactly when an `Except` computation succeeded (the Python
call returned instead of raising). -/
def isOkE {α : Type} : Except Err α → Bool
  | Except.ok _ => true
  | Except.error _ => false

/-! ### Lemmas about the split -/

theorem splitOnChar_ne_nil (sep : Char) (l : List Char) :
    splitOnChar sep l ≠ [] := by
  cases l with
  | nil => simp [splitOnChar]
  | cons c rest => by_cases h : c = sep <;> simp [splitOnChar, h]

theorem splitOnChar_eq_single_iff (sep : Char) (l a : List Char) :
    splitOnChar sep l = [a] ↔ l = a ∧ sep ∉ a := by
  induction l generalizing a with
  | nil =>
    simp only [splitOnChar]
    constructor
    · intro hL
      have := (List.cons.inj hL).1
      exact ⟨this, by simp [← this]⟩
    · rintro ⟨rfl, -⟩; rfl
  | cons c rest ih =>
    simp only [splitOnChar]
    by_cases h : c = sep
    · subst h
      rw [if_pos rfl]
      constructor
      · intro hL
        exact absurd (List.cons.inj hL).2 (splitOnChar_ne_nil _ _)
      · rintro ⟨rfl, hmem⟩
        exact (hmem (List.mem_cons_self _ _)).elim
    · rw [if_neg h]
      obtain ⟨p, ps, hps⟩ : ∃ p ps, splitOnChar sep rest = p :: ps := by
        cases hsp : splitOnChar sep rest with
        | nil => exact absurd hsp (splitOnChar_ne_nil _ _)
        | cons p ps => exact ⟨p, ps, rfl⟩
      rw [hps]
      simp only [List.headD_cons, List.tail_cons]
      constructor
      · intro hL
        obtain ⟨h1, h2⟩ := List.cons.inj hL
        subst h2
        obtain ⟨hr, hmem⟩ := (ih p).mp hps
        subst hr
        refine ⟨h1, ?_⟩
        rw [← h1]
        intro hm
        rcases List.mem_cons.mp hm with hm1 | hm2
        · exact h hm1.symm
        · exact hmem hm2
      · rintro ⟨rfl, hmem⟩
        have hsingle : splitOnChar sep rest = [rest] :=
          (ih rest).mpr ⟨rfl, fun hm => hmem (List.mem_cons_of_mem _ hm)⟩
        rw [hps] at hsingle
        obtain ⟨h1, h2⟩ := List.cons.inj hsingle
        rw [h1, h2]

theorem splitOnChar_eq_pair_iff (sep : Char) (l a b : List Char) :
    splitOnChar sep l = [a, b] ↔ l = a ++ sep :: b ∧ sep ∉ a ∧ sep ∉ b := by
  induction l generalizing a with
  | nil =>
    simp only [splitOnChar]
    constructor
    · intro hL
      exact absurd (List.cons.inj hL).2 (by simp)
    · rintro ⟨heq, -, -⟩
      exact absurd heq (by simp)
  | cons c rest ih =>
    simp only [splitOnChar]
    by_cases h : c = sep
    · subst h
      rw [if_pos rfl]
      constructor
      · intro hL
        obtain ⟨h1, h2⟩ := List.cons.inj hL
        obtain ⟨hr, hb⟩ := (splitOnChar_eq_single_iff _ _ _).mp h2
        subst hr
        exact ⟨by rw [← h1]; rfl, by rw [← h1]; exact List.not_mem_nil _, hb⟩
      · rintro ⟨heq, hna, hnb⟩
        cases a with
        | nil =>
          simp only [List.nil_append] at heq
          have hr := (List.cons.inj heq).2
          subst hr
          rw [(splitOnChar_eq_single_iff _ _ _).mpr ⟨rfl, hnb⟩]
        | cons x a' =>
          exact absurd (List.mem_cons_self x a')
            (by rw [← (List.cons.inj heq).1] at hna ⊢; exact hna)
    · rw [if_neg h]
      obtain ⟨p, ps, hps⟩ : ∃ p ps, splitOnChar sep rest = p :: ps := by
        cases hsp : splitOnChar sep rest with
        | nil => exact absurd hsp (splitOnChar_ne_nil _ _)
        | cons p ps => exact ⟨p, ps, rfl⟩
      rw [hps]
      simp only [List.headD_cons, List.tail_cons]
      constructor
      · intro hL
        obtain ⟨h1, h2⟩ := List.cons.inj hL
        have hpair : splitOnChar sep rest = [p, b] := by rw [hps, h2]
        obtain ⟨hr, hp, hb⟩ := (ih p).mp hpair
        refine ⟨?_, ?_, hb⟩
        · rw [← h1, hr]; rfl
        · rw [← h1]
          intro hm
          rcases List.mem_cons.mp hm with hm1 | hm2
          · exact h hm1.symm
          · exact hp hm2
      · rintro ⟨heq, hna, hnb⟩
        cases a with
        | nil =>
          simp only [List.nil_append] at heq
          exact absurd (List.cons.inj heq).1 h
        | cons x a' =>
          have hx := (List.cons.inj heq).1
          subst hx
          have hrest : rest = a' ++ sep :: b := (List.cons.inj heq).2
          have hpair : splitOnChar sep rest = [a', b] :=
            (ih a').mpr ⟨hrest, fun hm => hna (List.mem_cons_of_mem _ hm), hnb⟩
          rw [hps] at hpair
          obtain ⟨h1, h2⟩ := List.cons.inj hpair
          rw [h1, h2]

/-! ### Lemmas about Python `int` on digit strings -/

theorem isPyWs_eq_false_of_digit (c : Char) (h : isDigitChar c = true) :
    isPyWs c = false := by
  simp only [isDigitChar, Bool.and_eq_true, decide_eq_true_eq] at h
  simp only [isPyWs, Bool.or_eq_false_iff, Bool.and_eq_false_iff]
  constructor
  · simp only [decide_eq_false_iff_not]; omega
  · right; simp only [decide_eq_false_iff_not]; omega

theorem dropWhile_eq_self_of_false (p : Char → Bool) (l : List Char)
    (h : ∀ c ∈ l, p c = false) : l.dropWhile p = l := by
  cases l with
  | nil => rfl
  | cons c rest => simp [List.dropWhile_cons, h c (List.mem_cons_self _ _)]

theorem trimWs_of_digits (l : List Char)
    (h : ∀ c ∈ l, isDigitChar c = true) : trimWs l = l := by
  unfold trimWs
  rw [dropWhile_eq_self_of_false _ l
      (fun c hc => isPyWs_eq_false_of_digit c (h c hc)),
    dropWhile_eq_self_of_false _ l.reverse
      (fun c hc => isPyWs_eq_false_of_digit c (h c (List.mem_reverse.mp hc))),
    List.reverse_reverse]

theorem pyIntCore_cons_digit (acc : Nat) (c : Char) (rest : List Char)
    (h : isDigitChar c = true) :
    pyIntCore acc (c :: rest) = pyIntCore (10 * acc + digitVal c) rest := by
  rw [pyIntCore.eq_def]
  simp [h]

theorem pyIntCore_digits (l : List Char) (acc : Nat)
    (h : ∀ c ∈ l, isDigitChar c = true) :
    pyIntCore acc l = some (l.foldl (fun n c => 10 * n + digitVal c) acc) := by
  induction l generalizing acc with
  | nil => rfl
  | cons c rest ih =>
    rw [pyIntCore_cons_digit acc c rest (h c (List.mem_cons_self _ _)),
      List.foldl_cons]
    exact ih _ (fun d hd => h d (List.mem_cons_of_mem _ hd))

theorem pyNat?_digits (l : List Char) (hne : l ≠ [])
    (h : ∀ c ∈ l, isDigitChar c = true) : pyNat? l = some (decimalVal l) := by
  cases l with
  | nil => exact absurd rfl hne
  | cons c rest =>
    rw [pyNat?, if_pos (h c (List.mem_cons_self _ _)),
      pyIntCore_digits rest _ (fun d hd => h d (List.mem_cons_of_mem _ hd))]
    simp [decimalVal]

theorem digit_ne_minus (c : Char) (h : isDigitChar c = true) : c ≠ '-' := by
  intro hc; rw [hc] at h; exact absurd h (by decide)

theorem digit_ne_plus (c : Char) (h : isDigitChar c = true) : c ≠ '+' := by
  intro hc; rw [hc] at h; exact absurd h (by decide)

theorem pyInt?_digits (l : List Char) (hne : l ≠ [])
    (h : ∀ c ∈ l, isDigitChar c = true) :
    pyInt? l = some ((decimalVal l : Int)) := by
  rw [pyInt?, trimWs_of_digits l h]
  cases l with
  | nil => exact absurd rfl hne
  | cons c rest =>
    rw [pyIntSigned, if_neg (digit_ne_minus c (h c (List.mem_cons_self _ _))),
      if_neg (digit_ne_plus c (h c (List.mem_cons_self _ _))),
      pyNat?_digits _ hne h]
    rfl

theorem digit_ne_y (c : Char) (h : isDigitChar c = true) : c ≠ 'y' := by
  intro hc; rw [hc] at h; exact absurd h (by decide)

/-- C3: for every patch filename following the fixed naming convention — a
leading discardable character, the x digits, an underscore, the literal
character y, the y digits, an underscore, and a fixed 10-character
class-plus-extension ending — the coordinate parser returns exactly the
literal integer coordinates embedded in the filename, as a pure function
of the filename string. -/
theorem coordinate_parser_returns_embedded_coords
    (c0 : Char) (sx sy tail10 : List Char)
    (hsx : sx ≠ []) (hsxd : ∀ c ∈ sx, isDigitChar c = true)
    (hsy : sy ≠ []) (hsyd : ∀ c ∈ sy, isDigitChar c = true)
    (htail : tail10.length = 10) :
    parseCoords (c0 :: (sx ++ '_' :: 'y' :: (sy ++ '_' :: tail10)))
      = Except.ok ((decimalVal sx : Int), (decimalVal sy : Int)) := by
  have hform : sx ++ '_' :: 'y' :: (sy ++ '_' :: tail10)
      = ((sx ++ ['_']) ++ 'y' :: (sy ++ ['_'])) ++ tail10 := by simp
  have hslice :
      ((c0 :: (sx ++ '_' :: 'y' :: (sy ++ '_' :: tail10))).drop 1).take
          ((c0 :: (sx ++ '_' :: 'y' :: (sy ++ '_' :: tail10))).length - 11)
        = (sx ++ ['_']) ++ 'y' :: (sy ++ ['_']) := by
    rw [List.drop_succ_cons, List.drop_zero, hform]
    have hlen : (c0 :: (((sx ++ ['_']) ++ 'y' :: (sy ++ ['_'])) ++ tail10)).length - 11
        = ((sx ++ ['_']) ++ 'y' :: (sy ++ ['_'])).length := by
      simp [htail]
      omega
    rw [hlen, List.take_left]
  have hnx : 'y' ∉ sx ++ ['_'] := by
    intro hm
    rcases List.mem_append.mp hm with hm1 | hm2
    · exact digit_ne_y 'y' (hsxd 'y' hm1) rfl
    · simp at hm2
  have hny : 'y' ∉ sy ++ ['_'] := by
    intro hm
    rcases List.mem_append.mp hm with hm1 | hm2
    · exact digit_ne_y 'y' (hsyd 'y' hm1) rfl
    · simp at hm2
  have hsplit : splitOnChar 'y' ((sx ++ ['_']) ++ 'y' :: (sy ++ ['_']))
      = [sx ++ ['_'], sy ++ ['_']] :=
    (splitOnChar_eq_pair_iff _ _ _ _).mpr ⟨rfl, hnx, hny⟩
  have hdx : (sx ++ ['_']).dropLast = sx := List.dropLast_concat
  have hdy : (sy ++ ['_']).dropLast = sy := List.dropLast_concat
  simp only [parseCoords, hslice, hsplit, parsePair, hdx, hdy,
    pyInt?_digits sx hsx hsxd, pyInt?_digits sy hsy hsyd]

/-- Witness for C3 at the concrete filename x120_y340_class0.png,
which parses to (120, 340). -/
theorem coordinate_parser_returns_embedded_coords_witness :
    parseCoords ("x120_y340_class0.png".data) = Except.ok (120, 340) := by
  have h := coordinate_parser_returns_embedded_coords 'x'
    ['1', '2', '0'] ['3', '4', '0'] ['c', 'l', 'a', 's', 's', '0', '.', 'p', 'n', 'g']
    (by decide) (by decide) (by decide) (by decide) (by decide)
  exact h

/-- C4: the coordinate parser succeeds with `(x, y)` exactly when the sliced
filename region `name[1:-10]` decomposes as an x part and a y part around a
single literal y character, with each part, after dropping its final
character, a valid Python integer literal of that value.  Hence a filename
without the expected tokens, or with malformed numeric substrings, always
produces the ParseError result, and a parse can never silently invent a
coordinate (such as (0, 0)) that is not literally embedded in the name. -/
theorem coordinate_parser_ok_iff_embedded (name : List Char) (x y : Int) :
    parseCoords name = Except.ok (x, y)
      ↔ ∃ xs ys, (name.drop 1).take (name.length - 11) = xs ++ 'y' :: ys
          ∧ 'y' ∉ xs ∧ 'y' ∉ ys
          ∧ pyInt? xs.dropLast = some x ∧ pyInt? ys.dropLast = some y := by
  constructor
  · intro hok
    rcases hsp : splitOnChar 'y' ((name.drop 1).take (name.length - 11)) with
      _ | ⟨xs, _ | ⟨ys, _ | ⟨z, rest⟩⟩⟩
    · exact absurd hsp (splitOnChar_ne_nil _ _)
    · simp only [parseCoords, hsp] at hok
      exact Except.noConfusion hok
    · simp only [parseCoords, hsp, parsePair] at hok
      rcases hx : pyInt? xs.dropLast with _ | x' <;>
        rcases hy : pyInt? ys.dropLast with _ | y' <;>
          rw [hx, hy] at hok <;> simp at hok
      obtain ⟨rfl, rfl⟩ := hok
      obtain ⟨hdecomp, hnx, hny⟩ := (splitOnChar_eq_pair_iff _ _ _ _).mp hsp
      exact ⟨xs, ys, hdecomp, hnx, hny, hx, hy⟩
    · simp only [parseCoords, hsp] at hok
      exact Except.noConfusion hok
  · rintro ⟨xs, ys, hdecomp, hnx, hny, hx, hy⟩
    have hsp := (splitOnChar_eq_pair_iff 'y' _ xs ys).mpr ⟨hdecomp, hnx, hny⟩
    simp only [parseCoords, hsp, parsePair, hx, hy]

/-! ### Lemmas about pasting -/

theorem applyPastes_nil (c : Img) : applyPastes c [] = c := rfl

theorem applyPastes_cons (c : Img) (op : PasteOp) (ops : List PasteOp) :
    applyPastes c (op :: ops) = applyPastes (paste c op.1 op.2.1 op.2.2) ops := rfl

theorem applyPastes_append (c : Img) (ops1 ops2 : List PasteOp) :
    applyPastes c (ops1 ++ ops2) = applyPastes (applyPastes c ops1) ops2 := by
  simp [applyPastes, List.foldl_append]

theorem paste_width (c img : Img) (x y : Int) : (paste c img x y).width = c.width := rfl

theorem paste_height (c img : Img) (x y : Int) : (paste c img x y).height = c.height := rfl

theorem applyPastes_width (c : Img) (ops : List PasteOp) :
    (applyPastes c ops).width = c.width := by
  induction ops generalizing c with
  | nil => rfl
  | cons op ops ih => rw [applyPastes_cons, ih, paste_width]

theorem applyPastes_height (c : Img) (ops : List PasteOp) :
    (applyPastes c ops).height = c.height := by
  induction ops generalizing c with
  | nil => rfl
  | cons op ops ih => rw [applyPastes_cons, ih, paste_height]

theorem paste_pix_of_not_covers (c img : Img) (x y : Int) (i j : Nat)
    (h : ¬ coversOp (img, x, y) i j) : (paste c img x y).pix i j = c.pix i j := by
  simp only [paste]
  exact if_neg h

theorem paste_pix_of_covers (c img : Img) (x y : Int) (i j : Nat)
    (h : coversOp (img, x, y) i j) :
    (paste c img x y).pix i j = img.pix ((i : Int) - x).toNat ((j : Int) - y).toNat := by
  simp only [paste]
  exact if_pos h

theorem applyPastes_pix_of_not_covered (c : Img) (ops : List PasteOp) (i j : Nat)
    (h : ∀ op ∈ ops, ¬ coversOp op i j) : (applyPastes c ops).pix i j = c.pix i j := by
  induction ops generalizing c with
  | nil => rfl
  | cons op ops ih =>
    rw [applyPastes_cons, ih _ (fun o ho => h o (List.mem_cons_of_mem _ ho)),
      paste_pix_of_not_covers _ _ _ _ _ _ (h op (List.mem_cons_self _ _))]

/-- The canvas value at a pixel is the pixel of the last paste that wrote it. -/
theorem applyPastes_pix_last (c : Img) (ops1 : List PasteOp) (op : PasteOp)
    (ops2 : List PasteOp) (i j : Nat) (hcov : coversOp op i j)
    (hno : ∀ op' ∈ ops2, ¬ coversOp op' i j) :
    (applyPastes c (ops1 ++ op :: ops2)).pix i j
      = op.1.pix ((i : Int) - op.2.1).toNat ((j : Int) - op.2.2).toNat := by
  rw [applyPastes_append, applyPastes_cons,
    applyPastes_pix_of_not_covered _ _ _ _ hno, paste_pix_of_covers _ _ _ _ _ _ hcov]

/-! ### Lemmas about the monadic loops -/

theorem except_pure_eq {α : Type} (a : α) :
    (pure a : Except Err α) = Except.ok a := rfl

theorem except_bind_ok {α β : Type} (a : α) (f : α → Except Err β) :
    (Except.ok a >>= f : Except Err β) = f a := rfl

theorem except_pure_bind {α β : Type} (a : α) (f : α → Except Err β) :
    (pure a >>= f : Except Err β) = f a := rfl

theorem except_bind_error {α β : Type} (err : Err) (f : α → Except Err β) :
    ((Except.error err : Except Err α) >>= f) = Except.error err := rfl

theorem except_map_ok {α β : Type} (g : α → β) (a : α) :
    Except.map g (Except.ok a : Except Err α) = Except.ok (g a) := rfl

theorem except_map_error {α β : Type} (g : α → β) (err : Err) :
    Except.map g (Except.error err : Except Err α) = Except.error err := rfl

theorem mapM_ok_length {α β : Type} (f : α → Except Err β) (l : List α)
    (bs : List β) (h : l.mapM f = Except.ok bs) : bs.length = l.length := by
  induction l generalizing bs with
  | nil =>
    simp only [List.mapM_nil, except_pure_eq] at h
    cases h
    rfl
  | cons a l ih =>
    rw [List.mapM_cons] at h
    cases hf : f a with
    | error e => rw [hf, except_bind_error] at h; exact Except.noConfusion h
    | ok b =>
      rw [hf, except_bind_ok] at h
      cases hm : l.mapM f with
      | error e =>
        rw [hm, except_bind_error] at h
        exact Except.noConfusion h
      | ok bs' =>
        rw [hm, except_bind_ok, except_pure_eq] at h
        cases h
        simp [ih bs' hm]

theorem mapM_ok_get {α β : Type} (f : α → Except Err β) (l : List α)
    (bs : List β) (h : l.mapM f = Except.ok bs) (idx : Nat)
    (h1 : idx < l.length) (h2 : idx < bs.length) :
    f (l.get ⟨idx, h1⟩) = Except.ok (bs.get ⟨idx, h2⟩) := by
  induction l generalizing bs idx with
  | nil => exact absurd h1 (by simp)
  | cons a l ih =>
    rw [List.mapM_cons] at h
    cases hf : f a with
    | error e => rw [hf, except_bind_error] at h; exact Except.noConfusion h
    | ok b =>
      rw [hf, except_bind_ok] at h
      cases hm : l.mapM f with
      | error e =>
        rw [hm, except_bind_error] at h
        exact Except.noConfusion h
      | ok bs' =>
        rw [hm, except_bind_ok, except_pure_eq] at h
        cases h
        cases idx with
        | zero => exact hf
        | succ n =>
          exact ih bs' hm n (Nat.lt_of_succ_lt_succ h1) (Nat.lt_of_succ_lt_succ h2)

theorem foldlM_isOk_iff {α β : Type} (f : β → α → Except Err β) (p : α → Prop)
    (l : List α) (hf : ∀ b a, a ∈ l → (isOkE (f b a) = true ↔ p a)) (b : β) :
    isOkE (l.foldlM f b) = true ↔ ∀ a ∈ l, p a := by
  induction l generalizing b with
  | nil => simp [List.foldlM, isOkE, except_pure_eq]
  | cons a l ih =>
    rw [List.foldlM_cons]
    cases hfa : f b a with
    | error e =>
      rw [except_bind_error]
      constructor
      · intro hfalse; exact absurd hfalse (by simp [isOkE])
      · intro hall
        have := (hf b a (List.mem_cons_self _ _)).mpr (hall a (List.mem_cons_self _ _))
        rw [hfa] at this
        exact absurd this (by simp [isOkE])
    | ok b' =>
      rw [except_bind_ok]
      rw [ih (fun b a ha => hf b a (List.mem_cons_of_mem _ ha)) b']
      constructor
      · intro hall a' ha'
        rcases List.mem_cons.mp ha' with rfl | hm
        · exact (hf b a' (List.mem_cons_self _ _)).mp (by rw [hfa]; rfl)
        · exact hall a' hm
      · intro hall a' ha'
        exact hall a' (List.mem_cons_of_mem _ ha')

/-- The paste loop of a build method, rephrased: compute the whole list of
paste operations first, then fold them over the canvas. -/
theorem pasteLoop_eq_modeOps (choice : String → Except Err Img)
    (entries : List (String × Int × Int)) (c : Img) :
    entries.foldlM
      (fun canvas e => do
        let img ← choice e.1
        pure (paste canvas img e.2.1 e.2.2)) c
    = (modeOps choice entries).map (fun ops => applyPastes c ops) := by
  induction entries generalizing c with
  | nil => rfl
  | cons e rest ih =>
    have hMcons : modeOps choice (e :: rest)
        = ((choice e.1).map (fun im => (im, e.2.1, e.2.2)) >>= fun op =>
            modeOps choice rest >>= fun ops => pure (op :: ops)) := by
      rw [modeOps, List.mapM_cons]
      rfl
    rw [List.foldlM_cons, hMcons]
    cases hc : choice e.1 with
    | error err =>
      simp only [hc, except_map_error, except_bind_error]
    | ok img =>
      simp only [hc, except_map_ok, except_bind_ok, except_pure_bind]
      rw [ih]
      cases hm : (modeOps choice rest) with
      | error err =>
        rw [except_bind_error, except_map_error, except_map_error]
      | ok ops =>
        rw [except_bind_ok, except_pure_eq, except_map_ok, except_map_ok,
          applyPastes_cons]

/-! ### Lemmas about the gathering loop -/

theorem gather_truelabel_eq_plain : gatherData_truelabel = gatherData_plain := rfl

theorem gather_predicted_eq_plain : gatherData_predicted = gatherData_plain := rfl

theorem gatherAux_ok (listing : List String) (b g : GatherData)
    (h : listing.foldlM
      (fun g name => do
        let (x, y) ← parseCoords name.data
        pure { xs := g.xs ++ [x], ys := g.ys ++ [y],
               maxX := if x > g.maxX then x else g.maxX,
               maxY := if y > g.maxY then y else g.maxY }) b = Except.ok g) :
    ∃ ps, listing.mapM (fun n => parseCoords n.data) = Except.ok ps
      ∧ g.xs = b.xs ++ ps.map Prod.fst ∧ g.ys = b.ys ++ ps.map Prod.snd := by
  induction listing generalizing b with
  | nil =>
    rw [List.foldlM_nil, except_pure_eq] at h
    cases h
    exact ⟨[], rfl, by simp, by simp⟩
  | cons name rest ih =>
    rw [List.foldlM_cons] at h
    cases hp : parseCoords name.data with
    | error err =>
      simp only [hp, except_bind_error] at h
      exact Except.noConfusion h
    | ok p =>
      obtain ⟨x, y⟩ := p
      simp only [hp, except_bind_ok, except_pure_bind] at h
      obtain ⟨ps, hps, hxs, hys⟩ := ih _ h
      refine ⟨(x, y) :: ps, ?_, ?_, ?_⟩
      · rw [List.mapM_cons, hp, except_bind_ok, hps, except_bind_ok, except_pure_eq]
      · rw [hxs]; simp
      · rw [hys]; simp

theorem zip_fst_snd {α β : Type} (ps : List (α × β)) :
    (ps.map Prod.fst).zip (ps.map Prod.snd) = ps := by
  induction ps with
  | nil => rfl
  | cons p ps ih => simp [ih]

theorem gather_plain_ok_mapM (listing : List String) (g : GatherData)
    (h : gatherData_plain listing = Except.ok g) :
    listing.mapM (fun n => parseCoords n.data) = Except.ok (g.xs.zip g.ys) := by
  obtain ⟨ps, hps, hxs, hys⟩ := gatherAux_ok listing _ g h
  rw [hps]
  congr 1
  rw [hxs, hys]
  simp [zip_fst_snd]

theorem gather_plain_ok_lengths (listing : List String) (g : GatherData)
    (h : gatherData_plain listing = Except.ok g) :
    g.xs.length = listing.length ∧ g.ys.length = listing.length := by
  obtain ⟨ps, hps, hxs, hys⟩ := gatherAux_ok listing _ g h
  have hlen := mapM_ok_length _ _ _ hps
  constructor
  · rw [hxs]; simp [hlen]
  · rw [hys]; simp [hlen]

/-! ### Success characterizations of the loops -/

theorem mem_zip_fst {α β : Type} : ∀ (l1 : List α) (l2 : List β),
    l1.length ≤ l2.length → ∀ a ∈ l1, ∃ b, (a, b) ∈ l1.zip l2 := by
  intro l1
  induction l1 with
  | nil => intro l2 h a ha; exact absurd ha (List.not_mem_nil a)
  | cons x l1 ih =>
    intro l2 h a ha
    cases l2 with
    | nil => simp at h
    | cons y l2 =>
      rcases List.mem_cons.mp ha with rfl | hm
      · exact ⟨y, List.mem_cons_self _ _⟩
      · obtain ⟨b, hb⟩ := ih l2 (by simpa using h) a hm
        exact ⟨b, List.mem_cons_of_mem _ hb⟩

theorem truelabelChoice_ok_iff (dir : String) (images : String → Except Err Img)
    (name : String) :
    isOkE (truelabelChoice dir images name) = true
    ↔ (isOkE (classChar? name.data) = true
        ∧ (classChar? name.data = Except.ok '0' → isOkE (images (dir ++ name)) = true)) := by
  unfold truelabelChoice
  cases hc : classChar? name.data with
  | error e => simp [hc, except_bind_error, isOkE]
  | ok ch =>
    simp only [hc, except_bind_ok]
    by_cases h0 : ch = '0'
    · subst h0
      rw [if_pos rfl]
      cases hi : images (dir ++ name) <;> simp [isOkE]
    · rw [if_neg h0]
      constructor
      · intro _
        exact ⟨rfl, fun hcontra => absurd (Except.ok.inj hcontra) h0⟩
      · intro _
        rfl

theorem predictedChoice_ok_iff (model : Img → List ℝ) (dir : String)
    (images : String → Except Err Img) (name : String) :
    isOkE (predictedChoice model dir images name) = true
    ↔ isOkE (images (dir ++ name)) = true := by
  unfold predictedChoice
  cases hc : images (dir ++ name) with
  | error e => simp [hc, except_bind_error, isOkE]
  | ok img =>
    simp only [hc, except_bind_ok]
    by_cases h : predictedLabel (model img) = 0 <;> simp [h, isOkE, except_pure_eq]

theorem buildLoop_ok_forall (choice : String → Except Err Img)
    (listing : List String) (g : GatherData) (c : Img)
    (h : isOkE ((listing.zip (g.xs.zip g.ys)).foldlM
      (fun canvas e => do
        let img ← choice e.1
        pure (paste canvas img e.2.1 e.2.2)) c) = true) :
    ∀ e ∈ listing.zip (g.xs.zip g.ys), isOkE (choice e.1) = true := by
  rw [foldlM_isOk_iff _ (fun e => isOkE (choice e.1) = true)] at h
  · exact h
  · intro b a ha
    cases hc : choice a.1 with
    | error err => simp [hc, except_bind_error, isOkE]
    | ok img => simp [hc, except_bind_ok, except_pure_eq, isOkE]

theorem gather_ok_all_parse (listing : List String) (g : GatherData)
    (h : gatherData_plain listing = Except.ok g) :
    ∀ name ∈ listing, isOkE (parseCoords name.data) = true := by
  have hOk : isOkE (gatherData_plain listing) = true := by rw [h]; rfl
  rw [gatherData_plain,
    foldlM_isOk_iff _ (fun name => isOkE (parseCoords name.data) = true)] at hOk
  · exact hOk
  · intro b a ha
    cases hp : parseCoords a.data with
    | error err => simp [hp, except_bind_error, isOkE]
    | ok p =>
      obtain ⟨x, y⟩ := p
      simp [hp, except_bind_ok, except_pure_eq, isOkE]

/-- If a build of the common shape succeeds, every listed name parsed
successfully and every per-entry image choice succeeded. -/
theorem genericBuild_ok (choice : String → Except Err Img)
    (listing : List String) (dst : String) (r : String × Img)
    (hres : (do
        let g ← gatherData_plain listing
        let hist ← (listing.zip (g.xs.zip g.ys)).foldlM
          (fun canvas e => do
            let img ← choice e.1
            pure (paste canvas img e.2.1 e.2.2))
          (blankCanvas g.maxX.toNat g.maxY.toNat)
        pure (dst ++ ".png", hist) : Except Err (String × Img)) = Except.ok r) :
    (∀ name ∈ listing, isOkE (parseCoords name.data) = true)
    ∧ (∀ name ∈ listing, isOkE (choice name) = true) := by
  cases hg : gatherData_plain listing with
  | error e =>
    rw [hg, except_bind_error] at hres
    exact Except.noConfusion hres
  | ok g =>
    rw [hg, except_bind_ok] at hres
    have hloopOk : isOkE ((listing.zip (g.xs.zip g.ys)).foldlM
        (fun canvas e => do
          let img ← choice e.1
          pure (paste canvas img e.2.1 e.2.2))
        (blankCanvas g.maxX.toNat g.maxY.toNat)) = true := by
      cases hloop : (listing.zip (g.xs.zip g.ys)).foldlM
          (fun canvas e => do
            let img ← choice e.1
            pure (paste canvas img e.2.1 e.2.2))
          (blankCanvas g.maxX.toNat g.maxY.toNat) with
      | error e =>
        rw [hloop, except_bind_error] at hres
        exact Except.noConfusion hres
      | ok hist => rfl
    have hall := buildLoop_ok_forall choice listing g _ hloopOk
    refine ⟨gather_ok_all_parse listing g hg, ?_⟩
    intro name hmem
    have hlens := gather_plain_ok_lengths listing g hg
    have hlen2 : (g.xs.zip g.ys).length = listing.length := by
      simp [List.length_zip, hlens.1, hlens.2]
    obtain ⟨xy, hin⟩ := mem_zip_fst listing (g.xs.zip g.ys) (by omega) name hmem
    exact hall (name, xy) hin

/-- C8: errors abort the whole reconstruction with no output written: the
save of the canvas is the final step of each build, so when any patch fails
to parse, or fails to open where the mode opens it, the build returns that
error instead of a file write.  Plain and predicted modes open every
listed patch; ground-truth mode opens only class-0 patches (a class-1
patch is replaced by the green block without being opened). -/
theorem error_aborts_build_without_write (dir : String) (listing : List String)
    (images : String → Except Err Img) (model : Img → List ℝ) (dst : String) :
    ((∃ name ∈ listing, isOkE (parseCoords name.data) = false
        ∨ isOkE (images (dir ++ name)) = false) →
      isOkE (build_histopathological_image dir listing images dst) = false
      ∧ isOkE (build_predicted_histopathological_image model dir listing images dst) = false)
    ∧ ((∃ name ∈ listing, isOkE (parseCoords name.data) = false
        ∨ isOkE (classChar? name.data) = false
        ∨ (classChar? name.data = Except.ok '0' ∧ isOkE (images (dir ++ name)) = false)) →
      isOkE (build_truelabel_histopathological_image dir listing images dst) = false) := by
  constructor
  · rintro ⟨name, hmem, hbad⟩
    constructor
    · cases hres : build_histopathological_image dir listing images dst with
      | error e => rfl
      | ok r =>
        exfalso
        obtain ⟨hparse, hchoice⟩ :=
          genericBuild_ok (plainChoice dir images) listing dst r hres
        rcases hbad with hb | hb
        · rw [hparse name hmem] at hb; exact Bool.noConfusion hb
        · have h1 := hchoice name hmem
          rw [show plainChoice dir images name = images (dir ++ name) from rfl] at h1
          rw [h1] at hb; exact Bool.noConfusion hb
    · cases hres : build_predicted_histopathological_image model dir listing images dst with
      | error e => rfl
      | ok r =>
        exfalso
        obtain ⟨hparse, hchoice⟩ :=
          genericBuild_ok (predictedChoice model dir images) listing dst r hres
        rcases hbad with hb | hb
        · rw [hparse name hmem] at hb; exact Bool.noConfusion hb
        · have h1 := hchoice name hmem
          rw [predictedChoice_ok_iff] at h1
          rw [h1] at hb; exact Bool.noConfusion hb
  · rintro ⟨name, hmem, hbad⟩
    cases hres : build_truelabel_histopathological_image dir listing images dst with
    | error e => rfl
    | ok r =>
      exfalso
      obtain ⟨hparse, hchoice⟩ :=
        genericBuild_ok (truelabelChoice dir images) listing dst r hres
      have h1 := (truelabelChoice_ok_iff dir images name).mp (hchoice name hmem)
      rcases hbad with hb | hb | ⟨hc0, hb⟩
      · rw [hparse name hmem] at hb; exact Bool.noConfusion hb
      · rw [h1.1] at hb; exact Bool.noConfusion hb
      · rw [h1.2 hc0] at hb; exact Bool.noConfusion hb

/-! ### Locating an entry inside the paste sequence -/

theorem zip_get_eq {α β : Type} : ∀ (l1 : List α) (l2 : List β) (idx : Nat)
    (h : idx < (l1.zip l2).length) (h1 : idx < l1.length) (h2 : idx < l2.length),
    (l1.zip l2).get ⟨idx, h⟩ = (l1.get ⟨idx, h1⟩, l2.get ⟨idx, h2⟩) := by
  intro l1
  induction l1 with
  | nil => intro l2 idx h h1 h2; exact absurd h1 (by simp)
  | cons x l1 ih =>
    intro l2 idx h h1 h2
    cases l2 with
    | nil => exact absurd h2 (by simp)
    | cons y l2 =>
      cases idx with
      | zero => rfl
      | succ n =>
        exact ih l2 n (by simpa using h) (by simpa using h1) (by simpa using h2)

theorem mem_drop_imp {α : Type} : ∀ (l : List α) (n : Nat) (a : α),
    a ∈ l.drop n → ∃ k, ∃ hk : k < l.length, n ≤ k ∧ l.get ⟨k, hk⟩ = a := by
  intro l
  induction l with
  | nil =>
    intro n a ha
    rw [List.drop_nil] at ha
    exact absurd ha (List.not_mem_nil a)
  | cons x l ih =>
    intro n a ha
    cases n with
    | zero =>
      obtain ⟨⟨k, hk⟩, hget⟩ := List.mem_iff_get.mp ha
      exact ⟨k, hk, Nat.zero_le _, hget⟩
    | succ n =>
      obtain ⟨k, hk, hnk, hget⟩ := ih n a ha
      exact ⟨k + 1, Nat.succ_lt_succ hk, Nat.succ_le_succ hnk, hget⟩

/-- Last-write-wins for a whole paste sequence: a pixel covered by the
idx-th operation and by no later operation holds the pixel of that operation. -/
theorem applyPastes_pix_get_last (c : Img) (ops : List PasteOp) (idx : Nat)
    (hidx : idx < ops.length) (i j : Nat)
    (hcov : coversOp (ops.get ⟨idx, hidx⟩) i j)
    (hlater : ∀ k (hk : k < ops.length), idx < k →
      ¬ coversOp (ops.get ⟨k, hk⟩) i j) :
    (applyPastes c ops).pix i j
      = (ops.get ⟨idx, hidx⟩).1.pix
          ((i : Int) - (ops.get ⟨idx, hidx⟩).2.1).toNat
          ((j : Int) - (ops.get ⟨idx, hidx⟩).2.2).toNat := by
  have hdecomp : ops = ops.take idx ++ ops.get ⟨idx, hidx⟩ :: ops.drop (idx + 1) := by
    conv_lhs => rw [← List.take_append_drop idx ops, List.drop_eq_get_cons hidx]
  have hno : ∀ op' ∈ ops.drop (idx + 1), ¬ coversOp op' i j := by
    intro op' hop'
    obtain ⟨k, hk, hge, hget⟩ := mem_drop_imp ops (idx + 1) op' hop'
    rw [← hget]
    exact hlater k hk (by omega)
  conv_lhs => rw [hdecomp]
  exact applyPastes_pix_last c _ _ _ i j hcov hno

/-- A successful build of the common shape produces exactly the write of
`applyPastes` of its operation list over the blank canvas. -/
theorem build_result_eq (choice : String → Except Err Img) (listing : List String)
    (dst : String) (g : GatherData) (ops : List PasteOp) (r : String × Img)
    (hg : gatherData_plain listing = Except.ok g)
    (hops : modeOps choice (listing.zip (g.xs.zip g.ys)) = Except.ok ops)
    (hres : (do
        let g ← gatherData_plain listing
        let hist ← (listing.zip (g.xs.zip g.ys)).foldlM
          (fun canvas e => do
            let img ← choice e.1
            pure (paste canvas img e.2.1 e.2.2))
          (blankCanvas g.maxX.toNat g.maxY.toNat)
        pure (dst ++ ".png", hist) : Except Err (String × Img)) = Except.ok r) :
    r = (dst ++ ".png", applyPastes (blankCanvas g.maxX.toNat g.maxY.toNat) ops) := by
  rw [hg, except_bind_ok, pasteLoop_eq_modeOps, hops, except_map_ok, except_bind_ok,
    except_pure_eq] at hres
  exact (Except.ok.inj hres).symm

/-! ### Concrete inputs used in witnesses and counterexamples -/

/-- An image opener that always succeeds with one fixed 50x50 patch. -/
def exampleImages : String → Except Err Img :=
  fun _ => Except.ok { width := 50, height := 50, pix := fun _ _ => (120, 60, 30) }

/-- A classifier whose first output logit is always 1 (malignant). -/
def exampleModel : Img → List ℝ := fun _ => [1]

/-- The four-patch scenario of the end-to-end plain-mode property:
positions (0,0), (50,0), (0,50), (50,50), all class 0. -/
def fourPatchListing : List String :=
  ["x0_y0_class0.png", "x50_y0_class0.png", "x0_y50_class0.png", "x50_y50_class0.png"]

/-! ### Claim theorems -/

/-- C9: the three build methods repeat the identical coordinate-gathering
and sizing prelude, so for the same directory listing they compute the same
parsed coordinate lists `x_list`, `y_list` and the same `max_x`, `max_y`
(and hence size their canvases identically, each mode using
`blankCanvas g.maxX.toNat g.maxY.toNat`). -/
theorem all_modes_share_gather_prelude (listing : List String) :
    gatherData_truelabel listing = gatherData_plain listing
    ∧ gatherData_predicted listing = gatherData_plain listing
    ∧ (gatherData_truelabel listing).map (fun g => (g.maxX.toNat, g.maxY.toNat))
        = (gatherData_plain listing).map (fun g => (g.maxX.toNat, g.maxY.toNat))
    ∧ (gatherData_predicted listing).map (fun g => (g.maxX.toNat, g.maxY.toNat))
        = (gatherData_plain listing).map (fun g => (g.maxX.toNat, g.maxY.toNat)) :=
  ⟨rfl, rfl, rfl, rfl⟩

/-- C2 counterexample: on an empty directory listing none of the three
modes fails — no EmptyInputError (or any error) is raised; each build
succeeds and proceeds to save.  The source has no empty-input check at
all. -/
theorem empty_listing_no_error :
    isOkE (build_histopathological_image "d/" [] exampleImages "out") = true
    ∧ isOkE (build_truelabel_histopathological_image "d/" [] exampleImages "out") = true
    ∧ isOkE (build_predicted_histopathological_image exampleModel "d/" [] exampleImages "out")
        = true :=
  ⟨rfl, rfl, rfl⟩

/-- C2 amended: on an empty directory listing, `max_x` and `max_y` remain 0,
so each of the three modes succeeds and writes a 0x0 white canvas to
`dst ++ ".png"` instead of raising anything. -/
theorem empty_listing_builds_zero_canvas (dir dst : String)
    (images : String → Except Err Img) (model : Img → List ℝ) :
    build_histopathological_image dir [] images dst
        = Except.ok (dst ++ ".png", blankCanvas 0 0)
    ∧ build_truelabel_histopathological_image dir [] images dst
        = Except.ok (dst ++ ".png", blankCanvas 0 0)
    ∧ build_predicted_histopathological_image model dir [] images dst
        = Except.ok (dst ++ ".png", blankCanvas 0 0) :=
  ⟨rfl, rfl, rfl⟩

/-- C1 (code bug): in the four-patch scenario — patches of size 50x50 at
(0,0), (50,0), (0,50), (50,50), all class 0 — plain reconstruction sizes
its canvas as `(max_x, max_y) = (50, 50)`, not the 100x100 the claim
requires: the patches in the last row and column are entirely clipped
away. -/
theorem four_patch_canvas_is_50x50 :
    (build_histopathological_image "" fourPatchListing exampleImages "out").map
        (fun r => (r.2.width, r.2.height)) = Except.ok (50, 50)
    ∧ (build_histopathological_image "" fourPatchListing exampleImages "out").map
        (fun r => (r.2.width, r.2.height)) ≠ Except.ok (100, 100) := by
  refine ⟨rfl, ?_⟩
  intro hcontra
  rw [show (build_histopathological_image "" fourPatchListing exampleImages "out").map
        (fun r => (r.2.width, r.2.height)) = Except.ok (50, 50) from rfl] at hcontra
  simp at hcontra

/-- C5: in ground-truth mode, the idx-th listed patch is pasted at its
parsed position `(x_list[idx], y_list[idx])`; when the class
character of its filename is 1 the fixed 50x50 green `malignant_patch` is pasted there
instead of the patch image, and when it is 0 the opened patch bitmap is
pasted unmodified.  Stated pixelwise, for any pixel of the pasted
rectangle that no later paste overwrites. -/
theorem truelabel_green_for_class1 (dir : String) (listing : List String)
    (images : String → Except Err Img) (dst : String) (g : GatherData)
    (ops : List PasteOp) (r : String × Img)
    (hg : gatherData_truelabel listing = Except.ok g)
    (hops : modeOps (truelabelChoice dir images)
      (listing.zip (g.xs.zip g.ys)) = Except.ok ops)
    (hres : build_truelabel_histopathological_image dir listing images dst
      = Except.ok r)
    (idx : Nat) (hidx : idx < (listing.zip (g.xs.zip g.ys)).length)
    (name : String) (x y : Int)
    (hentry : (listing.zip (g.xs.zip g.ys)).get ⟨idx, hidx⟩ = (name, x, y))
    (hopIdx : idx < ops.length)
    (i j : Nat)
    (hlater : ∀ k (hk : k < ops.length), idx < k →
      ¬ coversOp (ops.get ⟨k, hk⟩) i j) :
    parseCoords name.data = Except.ok (x, y)
    ∧ (classChar? name.data = Except.ok '1' →
        x ≤ (i : Int) → (i : Int) < x + 50 → y ≤ (j : Int) → (j : Int) < y + 50 →
        r.2.pix i j = (0, 255, 0))
    ∧ (∀ img, classChar? name.data = Except.ok '0' →
        images (dir ++ name) = Except.ok img →
        x ≤ (i : Int) → (i : Int) < x + img.width →
        y ≤ (j : Int) → (j : Int) < y + img.height →
        r.2.pix i j = img.pix ((i : Int) - x).toNat ((j : Int) - y).toNat) := by
  have hgp : gatherData_plain listing = Except.ok g := by
    rw [← gather_truelabel_eq_plain]
    exact hg
  have hlens := gather_plain_ok_lengths listing g hgp
  have hl1 : idx < listing.length := by
    rw [List.length_zip, List.length_zip, hlens.1, hlens.2] at hidx
    omega
  have hl2 : idx < (g.xs.zip g.ys).length := by
    rw [List.length_zip, hlens.1, hlens.2]
    omega
  have hzg := zip_get_eq listing (g.xs.zip g.ys) idx hidx hl1 hl2
  rw [hentry] at hzg
  have hname : listing.get ⟨idx, hl1⟩ = name := (Prod.mk.inj hzg.symm).1
  have hxy : (g.xs.zip g.ys).get ⟨idx, hl2⟩ = (x, y) := (Prod.mk.inj hzg.symm).2
  have hparse := mapM_ok_get _ listing (g.xs.zip g.ys)
    (gather_plain_ok_mapM listing g hgp) idx hl1 hl2
  rw [hname, hxy] at hparse
  have hops' := hops
  rw [modeOps] at hops'
  have hopGet := mapM_ok_get _ _ _ hops' idx hidx hopIdx
  rw [hentry] at hopGet
  dsimp only at hopGet
  have hr := build_result_eq (truelabelChoice dir images) listing dst g ops r hgp hops hres
  refine ⟨hparse, ?_, ?_⟩
  · intro hclass hx1 hx2 hy1 hy2
    have hchoice : truelabelChoice dir images name = Except.ok malignant_patch := by
      unfold truelabelChoice
      rw [hclass, except_bind_ok, if_neg (by decide : ¬('1' = '0'))]
      rfl
    rw [hchoice, except_map_ok] at hopGet
    have hop : ops.get ⟨idx, hopIdx⟩ = (malignant_patch, x, y) :=
      (Except.ok.inj hopGet).symm
    have hcov : coversOp (ops.get ⟨idx, hopIdx⟩) i j := by
      rw [hop]
      unfold coversOp
      refine ⟨hx1, ?_, hy1, ?_⟩
      · simp only [malignant_patch]
        exact_mod_cast hx2
      · simp only [malignant_patch]
        exact_mod_cast hy2
    rw [hr]
    rw [applyPastes_pix_get_last _ ops idx hopIdx i j hcov hlater, hop]
    rfl
  · intro img hclass himg hx1 hx2 hy1 hy2
    have hchoice : truelabelChoice dir images name = Except.ok img := by
      unfold truelabelChoice
      rw [hclass, except_bind_ok, if_pos rfl]
      exact himg
    rw [hchoice, except_map_ok] at hopGet
    have hop : ops.get ⟨idx, hopIdx⟩ = (img, x, y) :=
      (Except.ok.inj hopGet).symm
    have hcov : coversOp (ops.get ⟨idx, hopIdx⟩) i j := by
      rw [hop]
      unfold coversOp
      exact ⟨hx1, hx2, hy1, hy2⟩
    rw [hr]
    rw [applyPastes_pix_get_last _ ops idx hopIdx i j hcov hlater, hop]

/-- The image opened for every successful call of `exampleImages`. -/
def examplePatch : Img :=
  { width := 50, height := 50, pix := fun _ _ => (120, 60, 30) }

/-- A two-patch listing: a class-1 patch at (0,0), a class-0 patch at (50,50). -/
def truelabelWitnessListing : List String :=
  ["x0_y0_class1.png", "x50_y50_class0.png"]

/-- The gather result of `truelabelWitnessListing`. -/
def truelabelWitnessG : GatherData :=
  { xs := [0, 50], ys := [0, 50], maxX := 50, maxY := 50 }

/-- The paste operations ground-truth mode performs on
`truelabelWitnessListing`: the green block at (0,0), the patch at (50,50). -/
def truelabelWitnessOps : List PasteOp :=
  [(malignant_patch, 0, 0), (examplePatch, 50, 50)]

/-- Witness for C5: on the two-patch listing, pixel (10,10) of the
ground-truth canvas is the green of the substituted block. -/
theorem truelabel_green_for_class1_witness :
    (applyPastes (blankCanvas 50 50) truelabelWitnessOps).pix 10 10 = (0, 255, 0) :=
  (truelabel_green_for_class1 "" truelabelWitnessListing exampleImages "out"
      truelabelWitnessG truelabelWitnessOps
      ("out.png", applyPastes (blankCanvas 50 50) truelabelWitnessOps)
      rfl rfl rfl 0 (by decide) "x0_y0_class1.png" 0 0 rfl (by decide) 10 10
      (by decide)).2.1 rfl (by decide) (by decide) (by decide) (by decide)

/-- Witness for C8: the unparsable listing entry bad aborts plain-mode
reconstruction, so no write is produced. -/
theorem error_aborts_build_without_write_witness :
    isOkE (build_histopathological_image "" ["bad"] exampleImages "out") = false :=
  ((error_aborts_build_without_write "" ["bad"] exampleImages exampleModel "out").1
    ⟨"bad", by simp, Or.inl rfl⟩).1

/-! ### The sigmoid threshold -/

theorem sigmoid_denom_pos (x : ℝ) : 0 < 1 + Real.exp (-x) := by positivity

theorem sigmoid_gt_half_iff (x : ℝ) : 1 / 2 < sigmoid x ↔ 0 < x := by
  unfold sigmoid
  rw [div_lt_div_iff (by norm_num) (sigmoid_denom_pos x), one_mul, one_mul]
  constructor
  · intro h
    have h2 : Real.exp (-x) < Real.exp 0 := by
      rw [Real.exp_zero]
      linarith
    have := Real.exp_lt_exp.mp h2
    linarith
  · intro h
    have h2 : Real.exp (-x) < Real.exp 0 := Real.exp_lt_exp.mpr (by linarith)
    rw [Real.exp_zero] at h2
    linarith

theorem sigmoid_zero : sigmoid 0 = 1 / 2 := by
  unfold sigmoid
  rw [neg_zero, Real.exp_zero]
  norm_num

/-- The decision value `1 if torch.sigmoid(output) > 0.5 else 0` reduces to
the sign test of the retained first logit. -/
theorem predictedLabel_eq (channels : List ℝ) :
    predictedLabel channels = if 0 < (channels.take 1).headD 0 then 1 else 0 := by
  unfold predictedLabel
  simp only [sigmoid_gt_half_iff]

theorem take_one_headD {α : Type} (l : List α) (d : α) (h : l ≠ []) :
    (l.take 1).headD d = l.head h := by
  cases l with
  | nil => exact absurd rfl h
  | cons a l => rfl

/-- C6: the per-patch decision of predicted mode is a single model
evaluation whose output is sliced to the first channel, passed through the
sigmoid and compared against 0.5 — which for the real logistic function is
exactly the test whether the first logit is positive.  The green block is
pasted exactly when that holds, the original patch otherwise. -/
theorem predicted_decision_first_channel_sigmoid_half
    (model : Img → List ℝ) (dir : String) (images : String → Except Err Img)
    (name : String) (img : Img)
    (him : images (dir ++ name) = Except.ok img) (hne : model img ≠ []) :
    predictedChoice model dir images name
      = Except.ok (if 0 < (model img).head hne then malignant_patch else img)
    ∧ (predictedLabel (model img) = 1 ↔ 1 / 2 < sigmoid ((model img).head hne)) := by
  have hhd := take_one_headD (model img) 0 hne
  constructor
  · unfold predictedChoice
    rw [him, except_bind_ok, predictedLabel_eq, hhd]
    by_cases hpos : 0 < (model img).head hne
    · simp [hpos, except_pure_eq]
    · simp [hpos, except_pure_eq]
  · rw [predictedLabel_eq, hhd, sigmoid_gt_half_iff]
    by_cases hpos : 0 < (model img).head hne
    · simp [hpos]
    · simp [hpos]

/-- A classifier whose only output logit is always 1. -/
def positiveModel : Img → List ℝ := fun _ => [1]

/-- Witness for C6: with a positive first logit (sigmoid above 0.5), the
predicted-mode choice for the patch is the green block. -/
theorem predicted_decision_first_channel_sigmoid_half_witness :
    predictedChoice positiveModel "" exampleImages "f" = Except.ok malignant_patch := by
  have hne : positiveModel examplePatch ≠ [] := by simp [positiveModel]
  have h := predicted_decision_first_channel_sigmoid_half positiveModel "" exampleImages
    "f" examplePatch rfl hne
  rw [h.1, if_pos (show (0 : ℝ) < (positiveModel examplePatch).head hne from zero_lt_one)]

/-- A classifier whose only output logit is always 0. -/
def zeroModel : Img → List ℝ := fun _ => [0]

/-- C10: the malignancy threshold is strict: a first logit of exactly 0
gives sigmoid = 1/2 exactly, the > 0.5 test fails, the prediction is
benign, and the original patch image is pasted, not the green block. -/
theorem predicted_zero_logit_is_benign (model : Img → List ℝ) (dir : String)
    (images : String → Except Err Img) (name : String) (img : Img)
    (him : images (dir ++ name) = Except.ok img)
    (h0 : ((model img).take 1).headD 0 = 0) :
    predictedLabel (model img) = 0
    ∧ predictedChoice model dir images name = Except.ok img
    ∧ sigmoid 0 = 1 / 2 := by
  have hlab : predictedLabel (model img) = 0 := by
    rw [predictedLabel_eq, h0, if_neg (lt_irrefl 0)]
  refine ⟨hlab, ?_, sigmoid_zero⟩
  unfold predictedChoice
  rw [him, except_bind_ok, if_pos hlab, except_pure_eq]

/-- Witness for C10: a model with logit exactly 0 labels the patch benign
and the original patch is pasted. -/
theorem predicted_zero_logit_is_benign_witness :
    predictedLabel (zeroModel examplePatch) = 0
    ∧ predictedChoice zeroModel "" exampleImages "f" = Except.ok examplePatch
    ∧ sigmoid 0 = 1 / 2 :=
  predicted_zero_logit_is_benign zeroModel "" exampleImages "f" examplePatch rfl rfl

/-! ### Listing order (C7) -/

/-- An opener with per-name distinguishable images: red for the a-name,
blue for the x-name at the same position, a third patch elsewhere. -/
def orderImages : String → Except Err Img :=
  fun s =>
    if s = "a0_y0_class0.png" then
      Except.ok { width := 50, height := 50, pix := fun _ _ => (255, 0, 0) }
    else if s = "x0_y0_class0.png" then
      Except.ok { width := 50, height := 50, pix := fun _ _ => (0, 0, 255) }
    else
      Except.ok { width := 50, height := 50, pix := fun _ _ => (9, 9, 9) }

/-- C7 counterexample: the two listings hold the same set of files, only in
a different (platform-dependent) order, yet plain reconstruction produces
different canvases: pixel (0,0) is blue for one listing order and red for
the other.  Patches are therefore processed in directory listing order, not
in any fixed canonical (e.g. sorted) order. -/
theorem listing_order_changes_canvas :
    (build_histopathological_image ""
        ["a0_y0_class0.png", "x0_y0_class0.png", "x50_y50_class0.png"]
        orderImages "out").map (fun r => r.2.pix 0 0)
      = Except.ok (0, 0, 255)
    ∧ (build_histopathological_image ""
        ["x0_y0_class0.png", "a0_y0_class0.png", "x50_y50_class0.png"]
        orderImages "out").map (fun r => r.2.pix 0 0)
      = Except.ok (255, 0, 0) :=
  ⟨rfl, rfl⟩

/-- C7 amended: each reconstruction processes patches in the order of the
given directory listing; the output canvas is a pure function of the
listing, the images and the model, so re-running on identical inputs gives
the identical canvas, and overlapping placements resolve deterministically
with the last-pasted-in-listing-order patch winning: a pixel covered by the
idx-th paste and no later one holds exactly the pixel of the idx-th pasted
image. -/
theorem plain_last_paste_wins (dir : String) (listing : List String)
    (images : String → Except Err Img) (dst : String) (g : GatherData)
    (ops : List PasteOp) (r : String × Img)
    (hg : gatherData_plain listing = Except.ok g)
    (hops : modeOps (plainChoice dir images)
      (listing.zip (g.xs.zip g.ys)) = Except.ok ops)
    (hres : build_histopathological_image dir listing images dst = Except.ok r)
    (idx : Nat) (hidx : idx < ops.length) (i j : Nat)
    (hcov : coversOp (ops.get ⟨idx, hidx⟩) i j)
    (hlater : ∀ k (hk : k < ops.length), idx < k →
      ¬ coversOp (ops.get ⟨k, hk⟩) i j) :
    r.2.pix i j = (ops.get ⟨idx, hidx⟩).1.pix
        ((i : Int) - (ops.get ⟨idx, hidx⟩).2.1).toNat
        ((j : Int) - (ops.get ⟨idx, hidx⟩).2.2).toNat := by
  have hr := build_result_eq (plainChoice dir images) listing dst g ops r hg hops hres
  rw [hr]
  exact applyPastes_pix_get_last _ ops idx hidx i j hcov hlater

/-- The gather result of the first C7 listing. -/
def orderWitnessG : GatherData :=
  { xs := [0, 0, 50], ys := [0, 0, 50], maxX := 50, maxY := 50 }

/-- The paste operations of plain mode on the first C7 listing. -/
def orderWitnessOps : List PasteOp :=
  [({ width := 50, height := 50, pix := fun _ _ => (255, 0, 0) }, 0, 0),
   ({ width := 50, height := 50, pix := fun _ _ => (0, 0, 255) }, 0, 0),
   ({ width := 50, height := 50, pix := fun _ _ => (9, 9, 9) }, 50, 50)]

/-- Witness for the amended C7: at pixel (0,0), covered by paste 1 (blue)
and not by the later paste 2, the canvas holds the blue pixel. -/
theorem plain_last_paste_wins_witness :
    (applyPastes (blankCanvas 50 50) orderWitnessOps).pix 0 0 = (0, 0, 255) :=
  plain_last_paste_wins ""
    ["a0_y0_class0.png", "x0_y0_class0.png", "x50_y50_class0.png"]
    orderImages "out" orderWitnessG orderWitnessOps
    ("out.png", applyPastes (blankCanvas 50 50) orderWitnessOps)
    rfl rfl rfl 1 (by decide) 0 0 (by decide) (by decide)

end HistImageMaker
